import Mathlib

/-!
Verification of the O3METER pixel-sampling and hue-to-scale transform.

The definitions below are a shallow embedding of src/O3METER.py.  Python
integers are modelled by Int (or by Nat where the source values are known
nonnegative), the numpy image array by a list of pixels (whole-image mode
works on the flattened array) or by a dimensioned buffer with a pixel
lookup (region mode), and a computation that raises an exception before
emitting its result is modelled by an Option that is none.
-/

namespace O3METER

/-- HueScale.hueToScale, src/O3METER.py lines 44-47: an HSV hue value is
mapped to an ozone scale value.  Python abs on an integer is Int abs. -/
def hueToScale (hue : Int) : Int :=
  if hue ≤ 60 then |hue - 60| else |hue - 359| + 61

/-- HueScale.scaleToHue, lines 50-51: the inverse function is hueToScale
itself. -/
def scaleToHue (scale : Int) : Int := hueToScale scale

/-- One pixel of the decoded image.  setImage (line 281) stores the buffer
as BGRA; computeAll reads channel 2 as red, 1 as green and 0 as blue, so a
pixel is modelled directly by its red, green and blue intensities. -/
structure Pixel where
  r : Nat
  g : Nat
  b : Nat
deriving DecidableEq

/-- The per-pixel maximum channel value, the chained numpy.fmax of
lines 128-129. -/
def maxc (p : Pixel) : Nat := max p.r (max p.g p.b)

/-- The array numpy.where(values < t, redPixels, zeros) of lines 131
and 139, over the flattened image. -/
def rvals (t : Nat) (img : List Pixel) : List Nat :=
  img.map fun p => if maxc p < t then p.r else 0

/-- The array numpy.where(values < t, greenPixels, zeros) of lines 132
and 140. -/
def gvals (t : Nat) (img : List Pixel) : List Nat :=
  img.map fun p => if maxc p < t then p.g else 0

/-- The array numpy.where(values < t, bluePixels, zeros) of lines 133
and 141. -/
def bvals (t : Nat) (img : List Pixel) : List Nat :=
  img.map fun p => if maxc p < t then p.b else 0

/-- numpy.count_nonzero on an integer array. -/
def countNonzero (l : List Nat) : Nat := (l.filter fun x => x != 0).length

/-- The workaround test of line 138: the code switches to the relaxed
threshold exactly when count_nonzero of the strict rvals is below 100. -/
def usesRelaxed (img : List Pixel) : Bool :=
  decide (countNonzero (rvals 150 img) < 100)

/-- The threshold whose where-masks feed the final sums and divisor. -/
def activeThreshold (img : List Pixel) : Nat :=
  if usesRelaxed img then 250 else 150

/-- CalculationThread.computeAll, lines 121-148: the truncated channel
means.  The division by nvals is float division followed by int truncation,
which on these nonnegative values is Nat floor division; when nvals is zero
the int conversion of nan raises, modelled by none. -/
def computeAll (img : List Pixel) : Option (Nat × Nat × Nat) :=
  let t := activeThreshold img
  let n := countNonzero (rvals t img)
  if n = 0 then none
  else some ((rvals t img).sum / n, (gvals t img).sum / n, (bvals t img).sum / n)

/-- Modelled from the spec: the RGB to HSV hue extraction of line 150 is
performed by the external Qt QColor class, whose code is not part of this
repository.  Standard hue computation: the maximum and minimum channel
values determine the sector formula, and the hue is conventionally 0 when
the maximum equals the minimum (a gray triple). -/
def rgbHue (r g b : Nat) : Int :=
  let M := max r (max g b)
  let m := min r (min g b)
  if M = m then 0
  else if M = r then
    (60 * ((g : Int) - (b : Int)) / ((M : Int) - (m : Int)) + 360) % 360
  else if M = g then
    60 * ((b : Int) - (r : Int)) / ((M : Int) - (m : Int)) + 120
  else
    60 * ((r : Int) - (g : Int)) / ((M : Int) - (m : Int)) + 240

/-- Line 150: the mean triple is turned into a hue and then a scale value
that computeAll emits. -/
def computeAllScale (img : List Pixel) : Option Int :=
  (computeAll img).map fun m => hueToScale (rgbHue m.1 m.2.1 m.2.2)

/-- The candidate set in the words of the spec, for comparison with the
code: the pixels whose maximum channel value is below the threshold. -/
def candidatePixels (t : Nat) (img : List Pixel) : List Pixel :=
  img.filter fun p => decide (maxc p < t)

/-- A two-pixel image: both pixels are candidates under either threshold,
and the first one has a zero red channel. -/
def imgTwo : List Pixel := [⟨0, 100, 100⟩, ⟨10, 20, 30⟩]

/-- A 100-pixel image whose pixels all qualify under the strict threshold
while every red channel is zero. -/
def imgHundred : List Pixel := List.replicate 100 ⟨0, 100, 100⟩

/-- MainWindow.logValue, lines 350-353: one line is appended to the log
file opened in append mode, so the new log contents are the old contents
followed by the line. -/
def logValue (log currentFile : String) (value : Int) : String :=
  log ++ (currentFile ++ " " ++ toString value ++ "\n")

/-- The hueCalculated signal connection of line 528: logValue runs once for
each emitted scale value; a computation that raised before its emit call
produced no value (none) and the log is untouched. -/
def analysisLog (log currentFile : String) (result : Option Int) : String :=
  match result with
  | some value => logValue log currentFile value
  | none => log

/-- An image buffer for region mode: the dimensions and a pixel lookup
(row then column), modelling the numpy array arr of shape
height times width. -/
structure Img where
  width : Nat
  height : Nat
  pix : Nat → Nat → Pixel

/-- The indices a numpy basic slice a:b selects on an axis of size n:
slicing clips to the axis bounds. -/
def sliceIdx (a b n : Nat) : List Nat :=
  (List.range n).filter fun i => decide (a ≤ i) && decide (i < b)

/-- The pixels of the submatrix arr[yo:yd, xo:xd] of lines 164-166. -/
def regionPixels (img : Img) (xo xd yo yd : Nat) : List Pixel :=
  (sliceIdx yo yd img.height).flatMap fun y =>
    (sliceIdx xo xd img.width).map fun x => img.pix y x

/-- The back-mapped minimum corner of lines 158 and 160: int truncation of
a nonnegative quotient is floor division. -/
def cornerLo (o d full disp : Nat) : Nat := min o d * full / disp

/-- The back-mapped maximum corner of lines 159 and 161: floor division
followed by adding one. -/
def cornerHi (o d full disp : Nat) : Nat := max o d * full / disp + 1

/-- CalculationThread.computeRegion, lines 155-175: the unfiltered
truncated channel means over the back-mapped rectangle; an empty
submatrix makes mean() produce nan and int() raise, modelled by none. -/
def computeRegion (img : Img) (LW LH ox oy dx dy : Nat) :
    Option (Nat × Nat × Nat) :=
  let xo := cornerLo ox dx img.width LW
  let xd := cornerHi ox dx img.width LW
  let yo := cornerLo oy dy img.height LH
  let yd := cornerHi oy dy img.height LH
  let ps := regionPixels img xo xd yo yd
  if ps.length = 0 then none
  else some ((ps.map Pixel.r).sum / ps.length,
             (ps.map Pixel.g).sum / ps.length,
             (ps.map Pixel.b).sum / ps.length)

/-- A concrete 4 by 3 image buffer used by the witnesses. -/
def imgSample : Img := ⟨4, 3, fun _ _ => ⟨10, 20, 30⟩⟩

/-- On the hue domain 0..359 the two absolute values resolve to the linear
pieces 60 - hue and 420 - hue. -/
theorem hueToScale_eq_pieces (hue : Int) (h0 : 0 ≤ hue) (h1 : hue ≤ 359) :
    hueToScale hue = if hue ≤ 60 then 60 - hue else 420 - hue := by
  unfold hueToScale
  rcases le_or_lt hue 60 with h | h
  · rw [if_pos h, if_pos h, abs_of_nonpos (by omega)]
    omega
  · rw [if_neg (by omega), if_neg (by omega), abs_of_nonpos (by omega)]
    omega

/-- Claim C1: for every hue in the domain 0..359, hueToScale hue equals
60 - hue when hue is at most 60 and 420 - hue otherwise; the boundary
values 0, 60, 240, 359 map to 60, 0, 180, 61; and hueToScale is strictly
decreasing on 0..60. -/
theorem hueToScale_piecewise (hue : Int) (h0 : 0 ≤ hue) (h1 : hue ≤ 359) :
    (hue ≤ 60 → hueToScale hue = 60 - hue) ∧
    (60 < hue → hueToScale hue = 420 - hue) ∧
    hueToScale 0 = 60 ∧ hueToScale 60 = 0 ∧
    hueToScale 240 = 180 ∧ hueToScale 359 = 61 ∧
    (∀ a b : Int, 0 ≤ a → a < b → b ≤ 60 → hueToScale b < hueToScale a) := by
  refine ⟨?_, ?_, by decide, by decide, by decide, by decide, ?_⟩
  · intro h
    rw [hueToScale_eq_pieces hue h0 h1, if_pos h]
  · intro h
    rw [hueToScale_eq_pieces hue h0 h1, if_neg (by omega)]
  · intro a b ha hab hb
    rw [hueToScale_eq_pieces a (by omega) (by omega), if_pos (by omega),
      hueToScale_eq_pieces b (by omega) (by omega), if_pos hb]
    omega

/-- Witness for C1 at hue 0. -/
theorem hueToScale_piecewise_witness :
    ((0 : Int) ≤ 60 → hueToScale 0 = 60 - 0) ∧
    ((60 : Int) < 0 → hueToScale 0 = 420 - 0) ∧
    hueToScale 0 = 60 ∧ hueToScale 60 = 0 ∧
    hueToScale 240 = 180 ∧ hueToScale 359 = 61 ∧
    (∀ a b : Int, 0 ≤ a → a < b → b ≤ 60 → hueToScale b < hueToScale a) :=
  hueToScale_piecewise 0 (by decide) (by decide)

/-- Counterexample to C4 as stated: hue 61 lies in 0..359 (inside the gap
61..239) yet its scale value is 359, far outside 0..180. -/
theorem hueToScale_gap_escape :
    (0 : Int) ≤ 61 ∧ (61 : Int) ≤ 359 ∧
    hueToScale 61 = 359 ∧ ¬ hueToScale 61 ≤ 180 := by decide

/-- Claim C4 (amended): for every hue in the two ranges the scale models,
0..60 and 240..359, the resulting scale value lies in 0..180; on the gap
61..239 the same piecewise formula applies but its value exceeds 180. -/
theorem hueToScale_range (hue : Int)
    (h : 0 ≤ hue ∧ hue ≤ 60 ∨ 240 ≤ hue ∧ hue ≤ 359) :
    0 ≤ hueToScale hue ∧ hueToScale hue ≤ 180 := by
  rcases h with ⟨h0, h1⟩ | ⟨h0, h1⟩
  · rw [hueToScale_eq_pieces hue h0 (by omega), if_pos h1]
    omega
  · rw [hueToScale_eq_pieces hue (by omega) h1, if_neg (by omega)]
    omega

/-- Witness for the amended C4 at hue 240. -/
theorem hueToScale_range_witness :
    0 ≤ hueToScale 240 ∧ hueToScale 240 ≤ 180 :=
  hueToScale_range 240 (by decide)

/-- Claim C5: scaleToHue is the very function hueToScale; composing the two
is the identity on the valid hue ranges 0..60 and 240..359; and scaleToHue
sends every scale value in 0..180 back into those two ranges. -/
theorem scaleToHue_involution (h : Int)
    (hh : 0 ≤ h ∧ h ≤ 60 ∨ 240 ≤ h ∧ h ≤ 359) :
    (∀ x : Int, scaleToHue x = hueToScale x) ∧
    scaleToHue (hueToScale h) = h ∧
    (∀ s : Int, 0 ≤ s → s ≤ 180 →
      0 ≤ scaleToHue s ∧ scaleToHue s ≤ 60 ∨
      240 ≤ scaleToHue s ∧ scaleToHue s ≤ 359) := by
  refine ⟨fun x => rfl, ?_, ?_⟩
  · show hueToScale (hueToScale h) = h
    rcases hh with ⟨h0, h1⟩ | ⟨h0, h1⟩
    · rw [hueToScale_eq_pieces h h0 (by omega), if_pos h1,
        hueToScale_eq_pieces (60 - h) (by omega) (by omega), if_pos (by omega)]
      omega
    · rw [hueToScale_eq_pieces h (by omega) h1, if_neg (by omega),
        hueToScale_eq_pieces (420 - h) (by omega) (by omega), if_neg (by omega)]
      omega
  · intro s hs0 hs1
    show 0 ≤ hueToScale s ∧ hueToScale s ≤ 60 ∨
      240 ≤ hueToScale s ∧ hueToScale s ≤ 359
    rw [hueToScale_eq_pieces s hs0 (by omega)]
    rcases le_or_lt s 60 with hs | hs
    · rw [if_pos hs]
      omega
    · rw [if_neg (by omega)]
      omega

/-- Witness for C5 at hue 250. -/
theorem scaleToHue_involution_witness :
    (∀ x : Int, scaleToHue x = hueToScale x) ∧
    scaleToHue (hueToScale 250) = 250 ∧
    (∀ s : Int, 0 ≤ s → s ≤ 180 →
      0 ≤ scaleToHue s ∧ scaleToHue s ≤ 60 ∨
      240 ≤ scaleToHue s ∧ scaleToHue s ≤ 359) :=
  scaleToHue_involution 250 (by decide)

/-- Claim C2 fails on the code: on imgTwo the active threshold is 250 and
both pixels are candidates, but the divisor count_nonzero(rvals) is 1, not
the candidate count 2, so the computed green mean is 120 where the claimed
elementwise mean over all candidate pixels is 60. -/
theorem computeAll_divisor_mismatch :
    activeThreshold imgTwo = 250 ∧
    (candidatePixels 250 imgTwo).length = 2 ∧
    countNonzero (rvals 250 imgTwo) = 1 ∧
    computeAll imgTwo = some (10, 120, 130) ∧
    ((candidatePixels 250 imgTwo).map Pixel.g).sum /
      (candidatePixels 250 imgTwo).length = 60 ∧
    (120 : Nat) ≠ 60 := by decide

/-- Claim C3 fails on the code: imgHundred has 100 candidate pixels under
the strict threshold, so the claim forbids relaxation, yet the code tests
count_nonzero(rvals), which is 0, and relaxes the threshold to 250. -/
theorem relaxation_trigger_mismatch :
    (candidatePixels 150 imgHundred).length = 100 ∧
    ¬ (candidatePixels 150 imgHundred).length < 100 ∧
    countNonzero (rvals 150 imgHundred) = 0 ∧
    usesRelaxed imgHundred = true ∧
    activeThreshold imgHundred = 250 := by decide

/-- Claim C6 fails on the code: after relaxation imgHundred still has 100
candidate pixels, a nonzero final candidate count, so the claim requires a
scale value; yet nvals = count_nonzero(rvals) is 0, the code divides by
zero, and nothing is emitted. -/
theorem zero_nvals_mismatch :
    (candidatePixels 250 imgHundred).length = 100 ∧
    countNonzero (rvals 250 imgHundred) = 0 ∧
    computeAll imgHundred = none ∧
    computeAllScale imgHundred = none := by decide

/-- Claim C8: a gray triple, all three channels equal, has hue 0 and hence
scale value 60. -/
theorem gray_pixel_scale (v : Nat) :
    rgbHue v v v = 0 ∧ hueToScale (rgbHue v v v) = 60 := by
  have h : rgbHue v v v = 0 := by simp [rgbHue]
  refine ⟨h, ?_⟩
  rw [h]
  decide

/-- Claim C9: a successful analysis appends exactly the single line
built from the file path and the scale value, leaving the previous log
contents in place as a prefix, and a failed analysis leaves the log
unchanged. -/
theorem logValue_appends (log file : String) (value : Int) :
    analysisLog log file (some value) =
      log ++ (file ++ " " ++ toString value ++ "\n") ∧
    analysisLog log file none = log :=
  ⟨rfl, rfl⟩

/-- A Nat floor division, cast to the rationals, is at most the exact
quotient. -/
theorem natDiv_cast_le (a b : Nat) (hb : 0 < b) :
    ((a / b : Nat) : ℚ) ≤ (a : ℚ) / (b : ℚ) := by
  rw [le_div_iff₀ (by exact_mod_cast hb)]
  exact_mod_cast Nat.div_mul_le_self a b

/-- The exact quotient is strictly below the Nat floor division plus one. -/
theorem cast_lt_natDiv_add_one (a b : Nat) (hb : 0 < b) :
    (a : ℚ) / (b : ℚ) < ((a / b : Nat) : ℚ) + 1 := by
  rw [div_lt_iff₀ (by exact_mod_cast hb)]
  have h : a < (a / b + 1) * b := by
    calc a = a / b * b + a % b := (Nat.div_add_mod' a b).symm
    _ < a / b * b + b := by
        have := Nat.mod_lt a hb
        omega
    _ = (a / b + 1) * b := by ring
  exact_mod_cast h

/-- Every in-bounds coordinate pair of the back-mapped rectangle
contributes its pixel to the submatrix. -/
theorem mem_regionPixels (img : Img) (xo xd yo yd x y : Nat)
    (hx1 : xo ≤ x) (hx2 : x < xd) (hx3 : x < img.width)
    (hy1 : yo ≤ y) (hy2 : y < yd) (hy3 : y < img.height) :
    img.pix y x ∈ regionPixels img xo xd yo yd := by
  unfold regionPixels
  rw [List.mem_flatMap]
  refine ⟨y, ?_, ?_⟩
  · simp only [sliceIdx, List.mem_filter, List.mem_range, Bool.and_eq_true,
      decide_eq_true_eq]
    omega
  · rw [List.mem_map]
    refine ⟨x, ?_, rfl⟩
    simp only [sliceIdx, List.mem_filter, List.mem_range, Bool.and_eq_true,
      decide_eq_true_eq]
    omega

/-- When the submatrix is not empty, computeRegion returns the unfiltered
truncated elementwise means over exactly its pixels. -/
theorem computeRegion_eq_means (img : Img) (LW LH ox oy dx dy : Nat)
    (h : regionPixels img (cornerLo ox dx img.width LW)
      (cornerHi ox dx img.width LW) (cornerLo oy dy img.height LH)
      (cornerHi oy dy img.height LH) ≠ []) :
    computeRegion img LW LH ox oy dx dy =
      some (((regionPixels img (cornerLo ox dx img.width LW)
          (cornerHi ox dx img.width LW) (cornerLo oy dy img.height LH)
          (cornerHi oy dy img.height LH)).map Pixel.r).sum /
        (regionPixels img (cornerLo ox dx img.width LW)
          (cornerHi ox dx img.width LW) (cornerLo oy dy img.height LH)
          (cornerHi oy dy img.height LH)).length,
        ((regionPixels img (cornerLo ox dx img.width LW)
          (cornerHi ox dx img.width LW) (cornerLo oy dy img.height LH)
          (cornerHi oy dy img.height LH)).map Pixel.g).sum /
        (regionPixels img (cornerLo ox dx img.width LW)
          (cornerHi ox dx img.width LW) (cornerLo oy dy img.height LH)
          (cornerHi oy dy img.height LH)).length,
        ((regionPixels img (cornerLo ox dx img.width LW)
          (cornerHi ox dx img.width LW) (cornerLo oy dy img.height LH)
          (cornerHi oy dy img.height LH)).map Pixel.b).sum /
        (regionPixels img (cornerLo ox dx img.width LW)
          (cornerHi ox dx img.width LW) (cornerLo oy dy img.height LH)
          (cornerHi oy dy img.height LH)).length) := by
  have hlen : (regionPixels img (cornerLo ox dx img.width LW)
      (cornerHi ox dx img.width LW) (cornerLo oy dy img.height LH)
      (cornerHi oy dy img.height LH)).length ≠ 0 := by
    simpa [List.length_eq_zero] using h
  unfold computeRegion
  simp [hlen]

/-- Claim C7: in region mode the display rectangle is back-mapped by the
ratio of full image size to displayed size, the minimum corner rounded
down and the maximum corner extended one pixel up, so the buffer rectangle
covers every nominally selected coordinate on each axis; every in-bounds
pixel of the rectangle is in the candidate set (no brightness filter), and
the result is the unfiltered truncated elementwise mean over exactly those
pixels. -/
theorem computeRegion_covers (img : Img) (LW LH ox oy dx dy : Nat)
    (hLW : 0 < LW) (hLH : 0 < LH) :
    (∀ q : ℚ, ((min ox dx * img.width : Nat) : ℚ) / ((LW : Nat) : ℚ) ≤ q →
      q ≤ ((max ox dx * img.width : Nat) : ℚ) / ((LW : Nat) : ℚ) →
      ((cornerLo ox dx img.width LW : Nat) : ℚ) ≤ q ∧
      q < ((cornerHi ox dx img.width LW : Nat) : ℚ)) ∧
    (∀ q : ℚ, ((min oy dy * img.height : Nat) : ℚ) / ((LH : Nat) : ℚ) ≤ q →
      q ≤ ((max oy dy * img.height : Nat) : ℚ) / ((LH : Nat) : ℚ) →
      ((cornerLo oy dy img.height LH : Nat) : ℚ) ≤ q ∧
      q < ((cornerHi oy dy img.height LH : Nat) : ℚ)) ∧
    (∀ x y : Nat,
      cornerLo ox dx img.width LW ≤ x → x < cornerHi ox dx img.width LW →
      x < img.width →
      cornerLo oy dy img.height LH ≤ y → y < cornerHi oy dy img.height LH →
      y < img.height →
      img.pix y x ∈ regionPixels img (cornerLo ox dx img.width LW)
        (cornerHi ox dx img.width LW) (cornerLo oy dy img.height LH)
        (cornerHi oy dy img.height LH)) ∧
    (regionPixels img (cornerLo ox dx img.width LW)
        (cornerHi ox dx img.width LW) (cornerLo oy dy img.height LH)
        (cornerHi oy dy img.height LH) ≠ [] →
      computeRegion img LW LH ox oy dx dy =
        some (((regionPixels img (cornerLo ox dx img.width LW)
            (cornerHi ox dx img.width LW) (cornerLo oy dy img.height LH)
            (cornerHi oy dy img.height LH)).map Pixel.r).sum /
          (regionPixels img (cornerLo ox dx img.width LW)
            (cornerHi ox dx img.width LW) (cornerLo oy dy img.height LH)
            (cornerHi oy dy img.height LH)).length,
          ((regionPixels img (cornerLo ox dx img.width LW)
            (cornerHi ox dx img.width LW) (cornerLo oy dy img.height LH)
            (cornerHi oy dy img.height LH)).map Pixel.g).sum /
          (regionPixels img (cornerLo ox dx img.width LW)
            (cornerHi ox dx img.width LW) (cornerLo oy dy img.height LH)
            (cornerHi oy dy img.height LH)).length,
          ((regionPixels img (cornerLo ox dx img.width LW)
            (cornerHi ox dx img.width LW) (cornerLo oy dy img.height LH)
            (cornerHi oy dy img.height LH)).map Pixel.b).sum /
          (regionPixels img (cornerLo ox dx img.width LW)
            (cornerHi ox dx img.width LW) (cornerLo oy dy img.height LH)
            (cornerHi oy dy img.height LH)).length)) := by
  refine ⟨?_, ?_, ?_, computeRegion_eq_means img LW LH ox oy dx dy⟩
  · intro q hq1 hq2
    constructor
    · exact le_trans (natDiv_cast_le (min ox dx * img.width) LW hLW) hq1
    · have h := cast_lt_natDiv_add_one (max ox dx * img.width) LW hLW
      have hc : ((cornerHi ox dx img.width LW : Nat) : ℚ) =
          ((max ox dx * img.width / LW : Nat) : ℚ) + 1 := by
        unfold cornerHi
        push_cast
        ring
      rw [hc]
      exact lt_of_le_of_lt hq2 h
  · intro q hq1 hq2
    constructor
    · exact le_trans (natDiv_cast_le (min oy dy * img.height) LH hLH) hq1
    · have h := cast_lt_natDiv_add_one (max oy dy * img.height) LH hLH
      have hc : ((cornerHi oy dy img.height LH : Nat) : ℚ) =
          ((max oy dy * img.height / LH : Nat) : ℚ) + 1 := by
        unfold cornerHi
        push_cast
        ring
      rw [hc]
      exact lt_of_le_of_lt hq2 h
  · intro x y hx1 hx2 hx3 hy1 hy2 hy3
    exact mem_regionPixels img _ _ _ _ x y hx1 hx2 hx3 hy1 hy2 hy3

/-- Witness for C7 on imgSample with displayed size 8 by 6 and the
selection from (1,0) to (6,5). -/
theorem computeRegion_covers_witness :
    (∀ q : ℚ, ((min 1 6 * imgSample.width : Nat) : ℚ) / (((8:Nat) : Nat) : ℚ) ≤ q →
      q ≤ ((max 1 6 * imgSample.width : Nat) : ℚ) / (((8:Nat) : Nat) : ℚ) →
      ((cornerLo 1 6 imgSample.width 8 : Nat) : ℚ) ≤ q ∧
      q < ((cornerHi 1 6 imgSample.width 8 : Nat) : ℚ)) ∧
    (∀ q : ℚ, ((min 0 5 * imgSample.height : Nat) : ℚ) / (((6:Nat) : Nat) : ℚ) ≤ q →
      q ≤ ((max 0 5 * imgSample.height : Nat) : ℚ) / (((6:Nat) : Nat) : ℚ) →
      ((cornerLo 0 5 imgSample.height 6 : Nat) : ℚ) ≤ q ∧
      q < ((cornerHi 0 5 imgSample.height 6 : Nat) : ℚ)) ∧
    (∀ x y : Nat,
      cornerLo 1 6 imgSample.width 8 ≤ x → x < cornerHi 1 6 imgSample.width 8 →
      x < imgSample.width →
      cornerLo 0 5 imgSample.height 6 ≤ y → y < cornerHi 0 5 imgSample.height 6 →
      y < imgSample.height →
      imgSample.pix y x ∈ regionPixels imgSample (cornerLo 1 6 imgSample.width 8)
        (cornerHi 1 6 imgSample.width 8) (cornerLo 0 5 imgSample.height 6)
        (cornerHi 0 5 imgSample.height 6)) ∧
    (regionPixels imgSample (cornerLo 1 6 imgSample.width 8)
        (cornerHi 1 6 imgSample.width 8) (cornerLo 0 5 imgSample.height 6)
        (cornerHi 0 5 imgSample.height 6) ≠ [] →
      computeRegion imgSample 8 6 1 0 6 5 =
        some (((regionPixels imgSample (cornerLo 1 6 imgSample.width 8)
            (cornerHi 1 6 imgSample.width 8) (cornerLo 0 5 imgSample.height 6)
            (cornerHi 0 5 imgSample.height 6)).map Pixel.r).sum /
          (regionPixels imgSample (cornerLo 1 6 imgSample.width 8)
            (cornerHi 1 6 imgSample.width 8) (cornerLo 0 5 imgSample.height 6)
            (cornerHi 0 5 imgSample.height 6)).length,
          ((regionPixels imgSample (cornerLo 1 6 imgSample.width 8)
            (cornerHi 1 6 imgSample.width 8) (cornerLo 0 5 imgSample.height 6)
            (cornerHi 0 5 imgSample.height 6)).map Pixel.g).sum /
          (regionPixels imgSample (cornerLo 1 6 imgSample.width 8)
            (cornerHi 1 6 imgSample.width 8) (cornerLo 0 5 imgSample.height 6)
            (cornerHi 0 5 imgSample.height 6)).length,
          ((regionPixels imgSample (cornerLo 1 6 imgSample.width 8)
            (cornerHi 1 6 imgSample.width 8) (cornerLo 0 5 imgSample.height 6)
            (cornerHi 0 5 imgSample.height 6)).map Pixel.b).sum /
          (regionPixels imgSample (cornerLo 1 6 imgSample.width 8)
            (cornerHi 1 6 imgSample.width 8) (cornerLo 0 5 imgSample.height 6)
            (cornerHi 0 5 imgSample.height 6)).length)) :=
  computeRegion_covers imgSample 8 6 1 0 6 5 (by decide) (by decide)

/-- Claim C10: for a selection whose endpoints lie inside the displayed
image, the back-mapped rectangle strictly contains at least one buffer
pixel (the upper corner exceeds the lower on both axes and the lower
corner is inside the buffer), so computeRegion returns a mean even for a
degenerate click. -/
theorem computeRegion_nonempty (img : Img) (LW LH ox oy dx dy : Nat)
    (hW : 0 < img.width) (hH : 0 < img.height)
    (hox : ox < LW) (hdx : dx < LW) (hoy : oy < LH) (hdy : dy < LH) :
    cornerLo ox dx img.width LW + 1 ≤ cornerHi ox dx img.width LW ∧
    cornerLo oy dy img.height LH + 1 ≤ cornerHi oy dy img.height LH ∧
    cornerLo ox dx img.width LW < img.width ∧
    cornerLo oy dy img.height LH < img.height ∧
    (computeRegion img LW LH ox oy dx dy).isSome = true := by
  have hxlohi : cornerLo ox dx img.width LW + 1 ≤ cornerHi ox dx img.width LW := by
    unfold cornerLo cornerHi
    have h := Nat.div_le_div_right (c := LW)
      (Nat.mul_le_mul (min_le_max (a := ox) (b := dx)) (le_refl img.width))
    omega
  have hylohi : cornerLo oy dy img.height LH + 1 ≤ cornerHi oy dy img.height LH := by
    unfold cornerLo cornerHi
    have h := Nat.div_le_div_right (c := LH)
      (Nat.mul_le_mul (min_le_max (a := oy) (b := dy)) (le_refl img.height))
    omega
  have hxlo : cornerLo ox dx img.width LW < img.width := by
    unfold cornerLo
    rw [Nat.div_lt_iff_lt_mul (by omega)]
    have h2 : min ox dx * img.width < LW * img.width :=
      mul_lt_mul_of_pos_right (by omega) hW
    exact lt_of_lt_of_eq h2 (mul_comm LW img.width)
  have hylo : cornerLo oy dy img.height LH < img.height := by
    unfold cornerLo
    rw [Nat.div_lt_iff_lt_mul (by omega)]
    have h2 : min oy dy * img.height < LH * img.height :=
      mul_lt_mul_of_pos_right (by omega) hH
    exact lt_of_lt_of_eq h2 (mul_comm LH img.height)
  refine ⟨hxlohi, hylohi, hxlo, hylo, ?_⟩
  have hmem : img.pix (cornerLo oy dy img.height LH) (cornerLo ox dx img.width LW) ∈
      regionPixels img (cornerLo ox dx img.width LW) (cornerHi ox dx img.width LW)
        (cornerLo oy dy img.height LH) (cornerHi oy dy img.height LH) :=
    mem_regionPixels img _ _ _ _ _ _ (le_refl _) (by omega) hxlo
      (le_refl _) (by omega) hylo
  have hne := List.ne_nil_of_mem hmem
  rw [computeRegion_eq_means img LW LH ox oy dx dy hne]
  rfl

/-- Witness for C10 on imgSample with displayed size 8 by 6 and a
degenerate click at (3,2). -/
theorem computeRegion_nonempty_witness :
    cornerLo 3 3 imgSample.width 8 + 1 ≤ cornerHi 3 3 imgSample.width 8 ∧
    cornerLo 2 2 imgSample.height 6 + 1 ≤ cornerHi 2 2 imgSample.height 6 ∧
    cornerLo 3 3 imgSample.width 8 < imgSample.width ∧
    cornerLo 2 2 imgSample.height 6 < imgSample.height ∧
    (computeRegion imgSample 8 6 3 2 3 2).isSome = true :=
  computeRegion_nonempty imgSample 8 6 3 2 3 2 (by decide) (by decide)
    (by decide) (by decide) (by decide) (by decide)

end O3METER
